import Mathlib

/-!
Shallow embedding of the animal-rescue data-preparation pipeline
(`src/utils.py` with the configuration tables of `src/config.py`).
Tables are lists of records; pandas column operations that act row by row
become maps over those lists; a boolean-mask `.loc` assignment whose mask
holds a missing value models the `ValueError` pandas raises by returning
`Except.error`.  Machine floats appear only in the incident-rate column;
its values are modelled exactly by `FloatVal` (a rational, or one of the
IEEE non-finite results produced by dividing by zero).
-/

namespace AnimalRescues

/-! ### Character-level string primitives

`leadMatch pat s` is true when `pat` is an initial run of `s`;
`containsList pat s` is Python's substring test `pat in s`;
`replaceAll pat s` is Python's `s.replace(pat, '')` (and pandas
`Series.str.replace(pat, '')` on one cell): scan left to right, drop each
occurrence found, resume after it. -/

def leadMatch : List Char → List Char → Bool
  | [], _ => true
  | _ :: _, [] => false
  | p :: ps, c :: cs => p == c && leadMatch ps cs

def containsList (pat : List Char) : List Char → Bool
  | [] => pat.isEmpty
  | c :: rest => leadMatch pat (c :: rest) || containsList pat rest

/-- Scanner for `replaceAll`: while `skip` is positive the scanner is still
inside a matched occurrence and drops characters without testing for new
matches (Python resumes the search after a replaced occurrence); at
`skip = 0` a match of `pat` starts a new skip of the rest of the
occurrence, and a non-match emits the character. -/
def replaceAllAux (pat : List Char) : Nat → List Char → List Char
  | _, [] => []
  | k + 1, _ :: rest => replaceAllAux pat k rest
  | 0, c :: rest =>
    if leadMatch pat (c :: rest) then replaceAllAux pat (pat.length - 1) rest
    else c :: replaceAllAux pat 0 rest

def replaceAll (pat s : List Char) : List Char := replaceAllAux pat 0 s

def removeAll (pat s : String) : String := String.mk (replaceAll pat.data s.data)

def pyContains (pat s : String) : Bool := containsList pat.data s.data

/-- Python `str.lower` (and, on the ASCII text of this data, `str.casefold`):
lowercase every character. -/
def lowerStr (s : String) : String := String.mk (s.data.map Char.toLower)

/-! ### Temporal enrichment (`add_time_dimensions`, utils.py lines 15-34)

The source computes `to_prep[date_col].dt.to_period('Q-MAR').dt.qyear - 1`.
A `Q-MAR` period is a fiscal year ending in March, and `qyear` labels it by
the calendar year of that ending March, so `qyear` of a date `(y, m)` is `y`
for `m` in January-March and `y + 1` for later months.  The month, week,
weekday and holiday helper columns of the source are not modelled: no claim
mentions them. -/

structure DatedRec where
  year : Int
  month : Nat
  day : Nat
deriving DecidableEq

structure EnrichedRec where
  year : Int
  month : Nat
  day : Nat
  fin_year : Int
deriving DecidableEq

def qyearQMar (y : Int) (month : Nat) : Int := if month ≤ 3 then y else y + 1

def add_time_dimensions (t : List DatedRec) : List EnrichedRec :=
  t.map (fun r => { year := r.year, month := r.month, day := r.day,
                    fin_year := qyearQMar r.year r.month - 1 })

/-! ### Animal classifier (`group_animals`, utils.py lines 37-46; lexicon
`animal_keywords`, config.py lines 54-79)

The source iterates over the keyword dict in declaration order and runs
`to_prep.loc[to_prep[desc_col].str.lower().str.contains('|'.join(kws)), 'animal'] = animal`.
The keywords hold no regex metacharacter, so the `contains` of the joined
pattern is: some keyword is a substring of the lowercased description.  A
missing description gives a NaN mask entry, and pandas refuses a boolean
mask holding NaN (`ValueError: Cannot mask with non-boolean array containing
NA / NaN values`), modelled by `Except.error`. -/

def animal_keywords : List (String × List String) :=
  [("dog", ["dog", "greyhound", "jack russell", "puppy", "huskey",
            "german shepherd", "terrier", "chihuahua", "jack russel",
            "puppies", "labrador"]),
   ("cat", ["cat", "kitten", " k itten "]),
   ("bird", ["bird", "pigeon", "pidgeon", "swift", "falcon", "crow", "magpie",
             "kestrel", "eagle", "gull", "heron", "swan", "goose", "parrot",
             "sparrow", "owl", "starling", "hawk", "duck", "duckling", "budgie",
             "geese", "mallard", "duickling", "kesterl", "chick", "swirft",
             "cygnet", "gosling"]),
   ("horse", ["horse", "foal", "pony", "dorse "]),
   ("cow", ["cow", "calf"]),
   ("pig", ["pig"]),
   ("sheep", ["sheep", "ewe", "lamb"]),
   ("deer", ["deer", " dear "]),
   ("fox", ["fox", "fos "]),
   ("squirrel", ["squirrel"]),
   ("snake", ["snake", "boa"]),
   ("small animal", ["hamster", "guinea pig", "rabbit", "hedgehog",
                     "chinchilla", "badger"])]

structure AnimalRec where
  desc : Option String
  animal : Option String
deriving DecidableEq

/-- Mask entry of one row for one category: `none` models pandas NaN
(missing description), otherwise whether some keyword occurs in the
lowercased description. -/
def maskEntry (kws : List String) : Option String → Option Bool
  | none => none
  | some d => some (kws.any (fun kw => containsList kw.data (lowerStr d).data))

/-- One iteration of the source loop: the `.loc[mask, 'animal'] = animal`
assignment for one category, refused when the mask holds a NaN entry. -/
def applyCategory (t : List AnimalRec) (cat : String) (kws : List String) :
    Except String (List AnimalRec) :=
  if t.all (fun r => (maskEntry kws r.desc).isSome) then
    Except.ok (t.map (fun r =>
      if (maskEntry kws r.desc).getD false then { r with animal := some cat } else r))
  else Except.error "Cannot mask with non-boolean array containing NA / NaN values"

def group_animals (t : List AnimalRec) : Except String (List AnimalRec) :=
  animal_keywords.foldlM (fun acc p => applyCategory acc p.1 p.2) t

/-- The categories of the lexicon, in declaration order, whose keywords match
a given description. -/
def matchingCats (d : Option String) : List (String × List String) :=
  animal_keywords.filter (fun p => (maskEntry p.2 d).getD false)

/-! ### Ward normalizer (`modify_wards`, utils.py lines 49-81)

Line 52 runs `to_prep.Ward.str.replace(' Ward', '')`, i.e. `removeAll` of
the substring `" Ward"` in every ward name.  Lines 53-77 are explicit
equality-guarded renames applied in document order against the current
ward value (two of them test membership in a two-element list); line 79
forces the district to `"Sandwell"` where the (already renamed) ward equals
`"Tipton Green"`.  Rows are independent, so the table operation is a map. -/

def renameRules : List (List String × String) :=
  [(["St. Peter's", "St Peter's"], "St Peters"),
   (["St. Michael's"], "St Michael's"),
   (["St. Pauls"], "St Pauls"),
   (["Bushbury South and Low Hill"], "Bushbury South & Low Hill"),
   (["Bournville"], "Bournville & Cotteridge"),
   (["Spring Vale"], "Ettingshall South & Spring Vale"),
   (["Longbridge"], "Longbridge & West Heath"),
   (["Sparkbrook"], "Sparkbrook & Balsall Heath East"),
   (["Hodge Hill"], "Bromford & Hodge Hill"),
   (["Moseley and Kings Heath"], "Moseley"),
   (["Brandwood"], "Brandwood & King's Heath"),
   (["Soho"], "Soho & Jewellery Quarter"),
   (["Bilston East"], "Bilston South"),
   (["Lozells and East Handsworth"], "Lozells"),
   (["Ettingshall"], "Ettingshall North"),
   (["Stechford and Yardley North"], "Yardley West & Stechford"),
   (["Washwood Heath"], "Bromford & Hodge Hill"),
   (["Sutton New Hall"], "Sutton Walmley & Minworth"),
   (["Springfield"], "Hall Green North"),
   (["Hall Green"], "Hall Green South"),
   (["Kings Norton"], "King's Norton South"),
   (["Tyburn"], "Erdington"),
   (["Weoley", "Selly Oak"], "Weoley & Selly Oak")]

def applyRenameRule (w : String) (rule : List String × String) : String :=
  if w ∈ rule.1 then rule.2 else w

def renameWard (w : String) : String := renameRules.foldl applyRenameRule w

def stripWard (w : String) : String := removeAll " Ward" w

structure WardRec (α : Type) where
  ward : String
  district : String
  extra : α
deriving DecidableEq

def modifyWardsRec {α : Type} (r : WardRec α) : WardRec α :=
  let w := renameWard (stripWard r.ward)
  { ward := w,
    district := if w = "Tipton Green" then "Sandwell" else r.district,
    extra := r.extra }

def modify_wards {α : Type} (t : List (WardRec α)) : List (WardRec α) :=
  t.map modifyWardsRec

/-! ### Geo-census joiner (`combine_maps_w_data`, utils.py lines 104-162)

The incident table is grouped by (fiscal year, district, ward) and the size
of each cell pivoted into one column per fiscal year present in the data
(`fillna(0)` makes absent cells zero); `Total_Incidents` is the row sum of
those columns.  The pivot, indexed by ward, is left-joined onto the boundary
table; apostrophes are stripped from ward names; every ward containing
`"Ettingshall"` is collapsed to `"Ettingshall"`; `dissolve(aggfunc='sum')`
merges rows of equal ward, concatenating geometries (union) and summing the
numeric columns with NaN (unmatched boundary rows) skipped; the census
population is left-joined and `fillna(0)` applied; finally
`inc_per_pop = (col 2021 + col 2022) / (Observation * 2) * 10000` in float
arithmetic.  Selecting columns `2021` and `2022` raises `KeyError` when a
fiscal year is absent from the data, modelled by `Except.error`.  The
district column after the dissolve is pandas' sum of strings, i.e. the
concatenation of the matched districts of the group, kept here as the list
of those strings; no claim reads it.  The presentation-only column renames
of lines 143-159 are not modelled. -/

structure IncRec where
  fin_year : Int
  district : String
  ward : String
deriving DecidableEq

structure KmlRec where
  ward : String
  geom : List String
deriving DecidableEq

def finYears (inc : List IncRec) : List Int := (inc.map (fun r => r.fin_year)).dedup

def sizeCount (inc : List IncRec) (y : Int) (d w : String) : ℚ :=
  ((inc.filter (fun r => r.fin_year == y && (r.district == d && r.ward == w))).length : ℚ)

def pivotKeys (inc : List IncRec) : List (String × String) :=
  (inc.map (fun r => (r.district, r.ward))).dedup

def totalIncidents (inc : List IncRec) (d w : String) : ℚ :=
  ((finYears inc).map (fun y => sizeCount inc y d w)).sum

structure JoinedRow where
  ward : String
  geom : List String
  src : Option (String × String)

def joinPivot (kml : List KmlRec) (inc : List IncRec) : List JoinedRow :=
  kml.flatMap (fun k =>
    match (pivotKeys inc).filter (fun p => p.2 == k.ward) with
    | [] => [{ ward := k.ward, geom := k.geom, src := none }]
    | m => m.map (fun p => { ward := k.ward, geom := k.geom, src := some p }))

def fixWardName (w : String) : String :=
  if containsList ("Ettingshall").data (removeAll "'" w).data then "Ettingshall"
  else removeAll "'" w

def rowCount (inc : List IncRec) (y : Int) : Option (String × String) → ℚ
  | none => 0
  | some p => sizeCount inc y p.1 p.2

def rowTotal (inc : List IncRec) : Option (String × String) → ℚ
  | none => 0
  | some p => totalIncidents inc p.1 p.2

structure DissolvedRow where
  ward : String
  geom : List String
  districts : List String
  counts : Int → ℚ
  total : ℚ

def dissolveGroup (inc : List IncRec) (w : String) (grp : List JoinedRow) : DissolvedRow where
  ward := w
  geom := grp.flatMap (fun r => r.geom)
  districts := grp.filterMap (fun r => r.src.map Prod.fst)
  counts := fun y => (grp.map (fun r => rowCount inc y r.src)).sum
  total := (grp.map (fun r => rowTotal inc r.src)).sum

def dissolveRows (inc : List IncRec) (rows : List JoinedRow) : List DissolvedRow :=
  ((rows.map (fun r => fixWardName r.ward)).dedup).map
    (fun w => dissolveGroup inc w (rows.filter (fun r => fixWardName r.ward == w)))

def fixDistrictsRow (r : DissolvedRow) : DissolvedRow :=
  if r.ward == "Castle Vale" || r.ward == "Allens Cross" then
    { r with districts := ["Birmingham"] }
  else if r.ward == "Ettingshall" then { r with districts := ["Wolverhampton"] }
  else r

/-- Value of the float rate column: a finite rational, or an IEEE non-finite
result of dividing by zero. -/
inductive FloatVal where
  | fin (q : ℚ)
  | posInf
  | negInf
  | nan
deriving DecidableEq

/-- IEEE division, exact on finite operands (the numbers here are small
integers and exact float ratios of them): `a / 0` is NaN for `a = 0` and a
signed infinity otherwise. -/
def floatDiv (a b : ℚ) : FloatVal :=
  if b = 0 then
    (if a = 0 then FloatVal.nan else if 0 < a then FloatVal.posInf else FloatVal.negInf)
  else FloatVal.fin (a / b)

/-- IEEE multiplication by a positive finite constant (here 10000): scales a
finite value, keeps infinities and NaN. -/
def floatMulPos (v : FloatVal) (c : ℚ) : FloatVal :=
  match v with
  | FloatVal.fin q => FloatVal.fin (q * c)
  | v => v

structure OutRow where
  ward : String
  districts : List String
  geom : List String
  counts : Int → ℚ
  total : ℚ
  population : ℚ
  rate : FloatVal

/-- Census population after the left join and `fillna(0)`: the observation
of the first census row of that ward, 0 when the ward is absent. -/
def censusPopulation (census : List (String × ℚ)) (w : String) : ℚ :=
  ((census.find? (fun c => c.1 == w)).map Prod.snd).getD 0

def finalizeRow (census : List (String × ℚ)) (r : DissolvedRow) : OutRow where
  ward := r.ward
  districts := r.districts
  geom := r.geom
  counts := r.counts
  total := r.total
  population := censusPopulation census r.ward
  rate := floatMulPos
    (floatDiv (r.counts 2021 + r.counts 2022) (censusPopulation census r.ward * 2)) 10000

def combine_maps_w_data (kml : List KmlRec) (inc : List IncRec)
    (census : List (String × ℚ)) : Except String (List OutRow) :=
  if (2021 : Int) ∈ finYears inc ∧ (2022 : Int) ∈ finYears inc then
    Except.ok
      (((dissolveRows inc (joinPivot kml inc)).map fixDistrictsRow).map (finalizeRow census))
  else Except.error "KeyError: no incidents in fiscal year 2021 or 2022"

/-! ### Text n-gram helper (`filter_stopwords`, `get_ngrams`, `ngram_counts`,
utils.py lines 175-188)

`word_tokenize` and the NLTK stopword list are external library data, passed
in as parameters (`tokenize`, `sw`).  `filter_stopwords` keeps a token
(unchanged, with its original case) when its casefolded form is not a
stopword; `casefold` is modelled by `lowerStr`, which agrees with
Python on the ASCII text involved.  `get_ngrams` lists the contiguous
windows of `n` tokens; `ngram_counts` gathers the windows of all records
into the multiset whose `Multiset.count` is pandas `value_counts`. -/

def casefold (w : String) : String := lowerStr w

def filter_stopwords (tokenize : String → List String) (sw : List String)
    (q : String) : List String :=
  (tokenize q).filter (fun w => !(sw.contains (casefold w)))

def get_ngrams (s : List String) (n : Nat) : List (List String) :=
  (List.range (s.length + 1 - n)).map (fun i => (s.drop i).take n)

def ngram_counts (tokenize : String → List String) (sw : List String)
    (data : List String) (n : Nat) : Multiset (List String) :=
  ↑(data.flatMap (fun q => get_ngrams (filter_stopwords tokenize sw q) n))

/-- Helper for `wsTokenize`: gather the current word `acc` and split at
spaces. -/
def wsTokenizeAux (acc : List Char) : List Char → List String
  | [] => if acc.isEmpty then [] else [String.mk acc]
  | c :: rest =>
    if c == ' ' then
      if acc.isEmpty then wsTokenizeAux [] rest
      else String.mk acc :: wsTokenizeAux [] rest
    else wsTokenizeAux (acc ++ [c]) rest

/-- Whitespace tokenization: what `nltk.word_tokenize` returns on the plain
space-separated alphabetic texts of the concrete instances below. -/
def wsTokenize (q : String) : List String := wsTokenizeAux [] q.data

/-- Modelled from the spec: a fragment of the NLTK English stopword list
("removing English stopwords"), external library data not under src/. -/
def englishStopwords : List String :=
  ["i", "me", "my", "we", "our", "you", "he", "she", "it", "the", "a", "an",
   "and", "or", "but", "if", "in", "on", "at", "by", "for", "with", "to",
   "from", "is", "are", "was", "were", "be", "been", "of", "that", "this",
   "not", "no"]

/-! ### Concrete inputs used by witnesses and counterexamples -/

def wardWitnessTable : List (WardRec Unit) :=
  [{ ward := "Bournville Ward", district := "Birmingham", extra := () },
   { ward := "Tipton Green", district := "Dudley", extra := () },
   { ward := "St. Peter's Ward", district := "Wolverhampton", extra := () }]

def wardCexTable : List (WardRec Unit) :=
  [{ ward := " Wa Wardrd", district := "Dudley", extra := () }]

def animalSample : List AnimalRec :=
  [{ desc := some "stray dog seen near park", animal := none },
   { desc := some "CAT stuck in a catapult", animal := none },
   { desc := some "paperwork only", animal := none }]

def kmlSample : List KmlRec :=
  [{ ward := "Alpha", geom := ["gA"] }, { ward := "Beta", geom := ["gB"] }]

def incSample : List IncRec :=
  [{ fin_year := 2021, district := "D1", ward := "Alpha" },
   { fin_year := 2022, district := "D1", ward := "Alpha" },
   { fin_year := 2021, district := "D1", ward := "Beta" }]

def censusSample : List (String × ℚ) := [("Alpha", 100)]

/-! ## Theorems -/

/-- C1: for every incident record with a valid date, `add_time_dimensions`
assigns fiscal year equal to the calendar year minus 1 when the month is
January, February or March, and equal to the calendar year for April
through December. -/
theorem add_time_dimensions_fiscal_year (t : List DatedRec) (r : DatedRec) (hr : r ∈ t)
    (h1 : 1 ≤ r.month) (h2 : r.month ≤ 12) :
    ∃ e ∈ add_time_dimensions t, e.year = r.year ∧ e.month = r.month ∧ e.day = r.day ∧
      ((r.month = 1 ∨ r.month = 2 ∨ r.month = 3) → e.fin_year = r.year - 1) ∧
      (4 ≤ r.month → e.fin_year = r.year) := by
  refine ⟨_, List.mem_map_of_mem _ hr, rfl, rfl, rfl, ?_, ?_⟩
  · intro h3
    simp only [qyearQMar]
    rcases h3 with h | h | h <;> simp [h]
  · intro h4
    simp only [qyearQMar]
    rw [if_neg (by omega)]
    omega

/-- C1 witness: the record dated 2020-02-15 is assigned fiscal year 2019, at
a concrete input of `add_time_dimensions`. -/
theorem add_time_dimensions_fiscal_year_witness :
    ∃ e ∈ add_time_dimensions [({ year := 2020, month := 2, day := 15 } : DatedRec)],
      e.year = 2020 ∧ e.month = 2 ∧ e.day = 15 ∧
      ((2 = 1 ∨ 2 = 2 ∨ 2 = 3) → e.fin_year = 2020 - 1) ∧
      (4 ≤ 2 → e.fin_year = 2020) :=
  add_time_dimensions_fiscal_year _ { year := 2020, month := 2, day := 15 }
    (by decide) (by decide) (by decide)

/-- C6: on a table holding a record with a missing description,
`group_animals` does not degrade the record to a non-match: the NaN mask
entry makes the `.loc` boolean indexing raise
`ValueError: Cannot mask with non-boolean array containing NA / NaN values`,
modelled here as `Except.error`. -/
theorem group_animals_missing_desc_raises :
    group_animals [({ desc := none, animal := none } : AnimalRec)] =
      Except.error "Cannot mask with non-boolean array containing NA / NaN values" := by
  rfl

set_option maxRecDepth 4000 in
/-- C3 counterexample: `modify_wards` is not idempotent on every input
table.  On the ward name " Wa Wardrd" one application removes the inner
" Ward" occurrence and leaves the name " Ward", which a second application
removes entirely. -/
theorem modify_wards_not_idempotent :
    modify_wards (modify_wards wardCexTable) ≠ modify_wards wardCexTable := by decide

/-- C7 counterexample: the first step of `modify_wards` does not leave ward
names with a non-trailing " Ward" occurrence unchanged: "The Wardens"
becomes "Theens". -/
theorem stripWard_changes_nontrailing :
    stripWard "The Wardens" ≠ "The Wardens" := by decide

theorem replaceAllAux_skip (pat : List Char) (k : Nat) (s : List Char) :
    replaceAllAux pat k s = replaceAllAux pat 0 (s.drop k) := by
  induction s generalizing k with
  | nil => cases k <;> rfl
  | cons c rest ih =>
    cases k with
    | zero => rfl
    | succ k =>
      show replaceAllAux pat k rest = _
      rw [List.drop_succ_cons]
      exact ih k

theorem replaceAll_cons (pat : List Char) (c : Char) (rest : List Char) :
    replaceAll pat (c :: rest) =
      if leadMatch pat (c :: rest) then replaceAll pat (rest.drop (pat.length - 1))
      else c :: replaceAll pat rest := by
  show replaceAllAux pat 0 (c :: rest) = _
  rw [replaceAllAux]
  by_cases h : leadMatch pat (c :: rest)
  · rw [if_pos h, if_pos h, replaceAllAux_skip]
    rfl
  · rw [if_neg h, if_neg h]
    rfl

theorem containsList_cons_false {pat : List Char} {c : Char} {rest : List Char}
    (h : containsList pat (c :: rest) = false) :
    leadMatch pat (c :: rest) = false ∧ containsList pat rest = false := by
  rw [containsList] at h
  exact Bool.or_eq_false_iff.mp h

theorem replaceAll_no_occurrence (pat s : List Char) (h : containsList pat s = false) :
    replaceAll pat s = s := by
  induction s with
  | nil => rfl
  | cons c rest ih =>
    obtain ⟨h1, h2⟩ := containsList_cons_false h
    rw [replaceAll_cons, h1]
    simp [ih h2]

theorem leadMatch_pat_append (s : List Char) (hne : s ≠ [])
    (h : containsList (" Ward").data s = false) :
    leadMatch (" Ward").data (s ++ (" Ward").data) = false := by
  have hW : (" Ward").data = [' ', 'W', 'a', 'r', 'd'] := by decide
  rw [hW] at h ⊢
  rcases s with _ | ⟨a, _ | ⟨b, _ | ⟨c, _ | ⟨d, _ | ⟨e, rest⟩⟩⟩⟩⟩
  · exact absurd rfl hne
  · simp +decide [leadMatch]
  · simp +decide [leadMatch]
  · simp +decide [leadMatch]
  · simp +decide [leadMatch]
  · have h1 := (containsList_cons_false h).1
    simp only [List.cons_append, leadMatch, Bool.and_true] at h1 ⊢
    exact h1

theorem replaceAll_append_pat (s : List Char) (h : containsList (" Ward").data s = false) :
    replaceAll (" Ward").data (s ++ (" Ward").data) = s := by
  induction s with
  | nil => decide
  | cons a s' ih =>
    obtain ⟨h1, h2⟩ := containsList_cons_false h
    have hlm := leadMatch_pat_append (a :: s') (by simp) h
    simp only [List.cons_append] at hlm ⊢
    rw [replaceAll_cons, hlm]
    simp [ih h2]

/-- C7 (amended): the first step of `modify_wards` replaces every
left-to-right occurrence of the substring " Ward" in a ward name by the
empty string, not only a trailing suffix: a name without the substring is
unchanged, appending " Ward" to such a name strips the appended suffix
again, and a name with a non-trailing occurrence ("The Wardens") is
modified as well. -/
theorem stripWard_replaces_every_occurrence (s : String)
    (h : containsList (" Ward").data s.data = false) :
    stripWard s = s ∧ stripWard (s ++ " Ward") = s ∧ stripWard "The Wardens" = "Theens" := by
  refine ⟨?_, ?_, by decide⟩
  · show String.mk (replaceAll (" Ward").data s.data) = s
    rw [replaceAll_no_occurrence _ _ h]
  · show String.mk (replaceAll (" Ward").data (s ++ " Ward").data) = s
    have he : (s ++ " Ward").data = s.data ++ (" Ward").data := rfl
    rw [he, replaceAll_append_pat _ h]

/-- C7 witness: the amended statement applied at the concrete ward name
"Bournville". -/
theorem stripWard_replaces_every_occurrence_witness :
    containsList (" Ward").data ("Bournville").data = false ∧
      (stripWard "Bournville" = "Bournville" ∧
        stripWard ("Bournville" ++ " Ward") = "Bournville" ∧
        stripWard "The Wardens" = "Theens") :=
  ⟨by decide, stripWard_replaces_every_occurrence "Bournville" (by decide)⟩

theorem foldl_applyRenameRule_cases (rules : List (List String × String)) (w : String) :
    rules.foldl applyRenameRule w = w ∨ rules.foldl applyRenameRule w ∈ rules.map Prod.snd := by
  induction rules generalizing w with
  | nil => exact Or.inl rfl
  | cons rule rs ih =>
    rw [List.foldl_cons]
    rcases ih (applyRenameRule w rule) with h | h
    · rw [h]
      unfold applyRenameRule
      split
      · exact Or.inr (by rw [List.map_cons]; exact List.mem_cons_self _ _)
      · exact Or.inl rfl
    · exact Or.inr (List.mem_cons_of_mem _ h)

theorem renameWard_cases (w : String) :
    renameWard w = w ∨ renameWard w ∈ renameRules.map Prod.snd :=
  foldl_applyRenameRule_cases renameRules w

set_option maxRecDepth 100000 in
set_option maxHeartbeats 2000000 in
/-- Every right-hand side of the rename table is itself fixed by both the
suffix strip and the rename pass: no produced name contains " Ward" or
equals a rule's trigger. -/
theorem renameWard_rhs_fixed :
    ∀ v ∈ renameRules.map Prod.snd, renameWard v = v ∧ stripWard v = v := by decide

theorem renameWard_stripWard_fixed (w : String)
    (h : stripWard (stripWard w) = stripWard w) :
    stripWard (renameWard (stripWard w)) = renameWard (stripWard w) ∧
      renameWard (renameWard (stripWard w)) = renameWard (stripWard w) := by
  rcases renameWard_cases (stripWard w) with hc | hc
  · rw [hc]
    exact ⟨h, hc⟩
  · exact ⟨(renameWard_rhs_fixed _ hc).2, (renameWard_rhs_fixed _ hc).1⟩

theorem modifyWardsRec_idem {α : Type} (r : WardRec α)
    (h : stripWard (stripWard r.ward) = stripWard r.ward) :
    modifyWardsRec (modifyWardsRec r) = modifyWardsRec r := by
  cases r with
  | mk ward district extra =>
    obtain ⟨hs, hn⟩ := renameWard_stripWard_fixed ward h
    unfold modifyWardsRec
    dsimp only
    rw [hs, hn]
    split_ifs <;> rfl

/-- C3 (amended): `modify_wards` is idempotent on every table in which no
ward name still contains the substring " Ward" after one pass of the
suffix strip (equivalently, stripping is idempotent on each ward name);
this covers every real ward name and is exactly what the counterexample
" Wa Wardrd" violates. -/
theorem modify_wards_idempotent {α : Type} (t : List (WardRec α))
    (h : ∀ r ∈ t, stripWard (stripWard r.ward) = stripWard r.ward) :
    modify_wards (modify_wards t) = modify_wards t := by
  unfold modify_wards
  rw [List.map_map]
  exact List.map_congr_left (fun r hr => modifyWardsRec_idem r (h r hr))

/-- C3 witness: idempotence applied at a concrete table holding the ward
names "Bournville Ward", "Tipton Green" and "St. Peter's Ward". -/
theorem modify_wards_idempotent_witness :
    (∀ r ∈ wardWitnessTable, stripWard (stripWard r.ward) = stripWard r.ward) ∧
      modify_wards (modify_wards wardWitnessTable) = modify_wards wardWitnessTable :=
  ⟨by decide, modify_wards_idempotent wardWitnessTable (by decide)⟩

set_option maxRecDepth 100000 in
set_option maxHeartbeats 1000000 in
/-- C8: `modify_wards` pairs every input record with an output record whose
extra columns are untouched; the district is unchanged unless the (renamed)
ward is "Tipton Green", in which case it is forced to "Sandwell"; and a
record whose ward is "Bournville" is rewritten to ward
"Bournville & Cotteridge" with its district (for example "Birmingham")
unchanged. -/
theorem modify_wards_frame {α : Type} (t : List (WardRec α)) :
    List.Forall₂ (fun r r' =>
      r'.extra = r.extra ∧
      (r'.ward ≠ "Tipton Green" → r'.district = r.district) ∧
      (r'.ward = "Tipton Green" → r'.district = "Sandwell") ∧
      (r.ward = "Bournville" →
        r'.ward = "Bournville & Cotteridge" ∧ r'.district = r.district))
      t (modify_wards t) := by
  rw [modify_wards, List.forall₂_map_right_iff, List.forall₂_same]
  intro r _
  cases r with
  | mk ward district extra =>
    unfold modifyWardsRec
    dsimp only
    refine ⟨rfl, ?_, ?_, ?_⟩
    · intro hne
      exact if_neg hne
    · intro heq
      exact if_pos heq
    · intro hb
      rw [hb]
      have h1 : renameWard (stripWard "Bournville") = "Bournville & Cotteridge" := by decide
      rw [h1]
      exact ⟨rfl, if_neg (by decide)⟩

/-! C2 machinery: the category loop of `group_animals` as a per-record left
fold, then the fold as the last matching category in lexicon order. -/

theorem maskEntry_isSome (kws : List String) (d : Option String) (h : d ≠ none) :
    (maskEntry kws d).isSome := by
  cases d with
  | none => exact absurd rfl h
  | some s => rfl

theorem applyStep_desc (cat : String) (kws : List String) (r : AnimalRec) :
    (if (maskEntry kws r.desc).getD false then { r with animal := some cat } else r).desc
      = r.desc := by
  split <;> rfl

theorem foldlM_applyCategory (cats : List (String × List String)) (t : List AnimalRec)
    (h : ∀ r ∈ t, r.desc ≠ none) :
    cats.foldlM (fun acc p => applyCategory acc p.1 p.2) t
      = Except.ok (t.map (fun r =>
          { r with animal := (cats.foldl
              (fun a p => if (maskEntry p.2 r.desc).getD false then some p.1 else a)
              r.animal) })) := by
  induction cats generalizing t with
  | nil =>
    have hid : t.map (fun r => ({ r with animal := r.animal } : AnimalRec)) = t := by
      have he : (fun (r : AnimalRec) => ({ r with animal := r.animal } : AnimalRec)) =
          (id : AnimalRec → AnimalRec) := rfl
      rw [he]
      exact List.map_id t
    exact congrArg Except.ok hid.symm
  | cons p ps ih =>
    have hcond : t.all (fun r => (maskEntry p.2 r.desc).isSome) = true := by
      rw [List.all_eq_true]
      intro r hr
      exact maskEntry_isSome p.2 r.desc (h r hr)
    have hstep : applyCategory t p.1 p.2 = Except.ok (t.map (fun r =>
        if (maskEntry p.2 r.desc).getD false then { r with animal := some p.1 } else r)) := by
      rw [applyCategory, if_pos hcond]
    show (applyCategory t p.1 p.2) >>= _ = _
    rw [hstep]
    show ps.foldlM _ (t.map _) = _
    rw [ih (t.map _) ?hdesc, List.map_map]
    case hdesc =>
      intro r hr
      rcases List.mem_map.mp hr with ⟨s, hs, rfl⟩
      rw [applyStep_desc]
      exact h s hs
    refine congrArg Except.ok (List.map_congr_left ?_)
    intro r _
    cases r with
    | mk d a =>
      by_cases hm : (maskEntry p.2 d).getD false
      · simp [Function.comp, hm]
      · simp [Function.comp, hm]

theorem foldl_lastMatch (cats : List (String × List String)) (d : Option String)
    (a : Option String) :
    cats.foldl (fun acc p => if (maskEntry p.2 d).getD false then some p.1 else acc) a
      = ((cats.filter (fun p => (maskEntry p.2 d).getD false)).getLast?).elim a
          (fun p => some p.1) := by
  induction cats generalizing a with
  | nil => rfl
  | cons p ps ih =>
    rw [List.foldl_cons, List.filter_cons]
    by_cases hm : (maskEntry p.2 d).getD false
    · rw [if_pos hm, if_pos hm, ih]
      cases e : ps.filter (fun p => (maskEntry p.2 d).getD false) with
      | nil => simp
      | cons q l =>
        rw [List.getLast?_cons_cons, List.getLast?_eq_getLast (q :: l) (by simp)]
        rfl
    · rw [if_neg hm, if_neg hm]
      exact ih a

/-- C2: when every description is present, `group_animals` succeeds and
tags each record with the LAST category of the lexicon (in declaration
order) whose keywords match the lowercased description: a record matching
exactly one category gets that category, a record matching several gets the
last of them, and a record matching none keeps its previous (null) animal
value. -/
theorem group_animals_last_match (t : List AnimalRec) (h : ∀ r ∈ t, r.desc ≠ none) :
    ∃ t', group_animals t = Except.ok t' ∧
      t' = t.map (fun r =>
        { r with animal :=
            ((matchingCats r.desc).getLast?).elim r.animal (fun p => some p.1) }) := by
  refine ⟨_, foldlM_applyCategory animal_keywords t h, ?_⟩
  refine List.map_congr_left ?_
  intro r _
  rw [foldl_lastMatch]
  rfl

/-- C2 witness: the classification applied at a concrete three-record table
("stray dog seen near park", "CAT stuck in a catapult", "paperwork only"). -/
theorem group_animals_last_match_witness :
    ∃ t', group_animals animalSample = Except.ok t' ∧
      t' = animalSample.map (fun r =>
        { r with animal :=
            ((matchingCats r.desc).getLast?).elim r.animal (fun p => some p.1) }) :=
  group_animals_last_match animalSample (by decide)

/-- C9 counterexample: `ngram_counts` is not case-insensitive.  The records
"stray dog seen" and "Stray Dog seen" differ only in letter case, no token
is a stopword, yet the bigram frequency counts differ because kept tokens
retain their original case. -/
theorem ngram_counts_not_case_insensitive :
    ngram_counts wsTokenize englishStopwords ["stray dog seen"] 2 ≠
      ngram_counts wsTokenize englishStopwords ["Stray Dog seen"] 2 := by decide

theorem filter_stopwords_congr (sw : List String) (l1 l2 : List String)
    (h : List.Forall₂ (fun w1 w2 => w1 = w2 ∨
      (casefold w1 = casefold w2 ∧ sw.contains (casefold w1) = true)) l1 l2) :
    l1.filter (fun w => !(sw.contains (casefold w))) =
      l2.filter (fun w => !(sw.contains (casefold w))) := by
  induction h with
  | nil => rfl
  | @cons a b l1' l2' hw hrest ih =>
    rcases hw with rfl | ⟨hcf, hmem⟩
    · rw [List.filter_cons, List.filter_cons, ih]
    · have h1 : (!(sw.contains (casefold a))) = false := by rw [hmem]; rfl
      have h2 : (!(sw.contains (casefold b))) = false := by rw [← hcf, hmem]; rfl
      rw [List.filter_cons, List.filter_cons, h1, h2]
      simpa using ih

theorem ngram_counts_congr_aux (tok1 tok2 : String → List String) (sw : List String)
    (n : Nat) (data1 data2 : List String)
    (h : List.Forall₂ (fun q1 q2 =>
      filter_stopwords tok1 sw q1 = filter_stopwords tok2 sw q2) data1 data2) :
    data1.flatMap (fun q => get_ngrams (filter_stopwords tok1 sw q) n) =
      data2.flatMap (fun q => get_ngrams (filter_stopwords tok2 sw q) n) := by
  induction h with
  | nil => rfl
  | @cons q1 q2 d1' d2' hq hrest ih =>
    rw [List.flatMap_cons, List.flatMap_cons, hq, ih]

/-- C9 (amended): `ngram_counts` case-folds a token only for the stopword
test and keeps matched tokens in their original case.  Consequently two
tokenized inputs that differ only in the letter case of stopword tokens
(tokens whose casefolded form is a stopword) yield identical n-gram counts,
while inputs differing in the case of kept tokens can yield different
counts (see the counterexample). -/
theorem ngram_counts_case_fold_stopwords_only (tok1 tok2 : String → List String)
    (sw : List String) (data1 data2 : List String) (n : Nat)
    (h : List.Forall₂ (fun q1 q2 => List.Forall₂ (fun w1 w2 => w1 = w2 ∨
      (casefold w1 = casefold w2 ∧ sw.contains (casefold w1) = true))
      (tok1 q1) (tok2 q2)) data1 data2) :
    ngram_counts tok1 sw data1 n = ngram_counts tok2 sw data2 n := by
  unfold ngram_counts
  refine congrArg _ (ngram_counts_congr_aux tok1 tok2 sw n data1 data2 ?_)
  exact List.Forall₂.imp (fun q1 q2 hq => filter_stopwords_congr sw _ _ hq) h

/-- C9 witness: the records "The dog barked" and "the dog barked" differ
only in the case of the stopword "the" and produce identical bigram
counts. -/
theorem ngram_counts_case_fold_stopwords_only_witness :
    List.Forall₂ (fun q1 q2 => List.Forall₂ (fun w1 w2 => w1 = w2 ∨
        (casefold w1 = casefold w2 ∧ englishStopwords.contains (casefold w1) = true))
        (wsTokenize q1) (wsTokenize q2)) ["The dog barked"] ["the dog barked"] ∧
      ngram_counts wsTokenize englishStopwords ["The dog barked"] 2 =
        ngram_counts wsTokenize englishStopwords ["the dog barked"] 2 := by
  have hf : List.Forall₂ (fun q1 q2 => List.Forall₂ (fun w1 w2 => w1 = w2 ∨
      (casefold w1 = casefold w2 ∧ englishStopwords.contains (casefold w1) = true))
      (wsTokenize q1) (wsTokenize q2)) ["The dog barked"] ["the dog barked"] := by
    refine List.Forall₂.cons ?_ List.Forall₂.nil
    show List.Forall₂ _ ["The", "dog", "barked"] ["the", "dog", "barked"]
    refine List.Forall₂.cons (Or.inr ⟨by decide, by decide⟩) ?_
    refine List.Forall₂.cons (Or.inl rfl) ?_
    exact List.Forall₂.cons (Or.inl rfl) List.Forall₂.nil
  exact ⟨hf, ngram_counts_case_fold_stopwords_only _ _ _ _ _ _ hf⟩

/-! Machinery for the geo-census joiner claims: list-sum commutation and
field preservation along the final stages of the pipeline. -/

theorem sum_map_zero {α : Type} (l : List α) : (l.map (fun _ => (0 : ℚ))).sum = 0 := by
  induction l with
  | nil => rfl
  | cons a l ih => simp [ih]

theorem sum_map_add {α : Type} (l : List α) (f g : α → ℚ) :
    (l.map (fun a => f a + g a)).sum = (l.map f).sum + (l.map g).sum := by
  induction l with
  | nil => simp
  | cons a l ih =>
    simp only [List.map_cons, List.sum_cons, ih]
    ring

theorem sum_map_comm {α β : Type} (l1 : List α) (l2 : List β) (f : α → β → ℚ) :
    (l1.map (fun a => (l2.map (fun b => f a b)).sum)).sum
      = (l2.map (fun b => (l1.map (fun a => f a b)).sum)).sum := by
  induction l1 with
  | nil =>
    simp only [List.map_nil, List.sum_nil]
    exact (sum_map_zero l2).symm
  | cons a l1 ih =>
    rw [List.map_cons, List.sum_cons, ih, ← sum_map_add]
    rfl

theorem combine_maps_ok {kml : List KmlRec} {inc : List IncRec}
    {census : List (String × ℚ)} {rows : List OutRow}
    (h : combine_maps_w_data kml inc census = Except.ok rows) :
    rows = ((dissolveRows inc (joinPivot kml inc)).map fixDistrictsRow).map
      (finalizeRow census) := by
  unfold combine_maps_w_data at h
  split at h
  · injection h with h
    exact h.symm
  · exact Except.noConfusion h

theorem fixDistrictsRow_fields (r : DissolvedRow) :
    (fixDistrictsRow r).counts = r.counts ∧ (fixDistrictsRow r).total = r.total := by
  unfold fixDistrictsRow
  split
  · exact ⟨rfl, rfl⟩
  · split
    · exact ⟨rfl, rfl⟩
    · exact ⟨rfl, rfl⟩

/-- C5: in the output of `combine_maps_w_data`, the sum of the
per-fiscal-year incident count columns of every ward row equals its
total-incidents column, including zero-filled wards (empty groups) and rows
merged by the Ettingshall collapse and the geometry dissolve. -/
theorem combine_maps_row_sums (kml : List KmlRec) (inc : List IncRec)
    (census : List (String × ℚ)) (rows : List OutRow)
    (h : combine_maps_w_data kml inc census = Except.ok rows) :
    ∀ r ∈ rows, ((finYears inc).map r.counts).sum = r.total := by
  intro r hr
  rw [combine_maps_ok h] at hr
  rcases List.mem_map.mp hr with ⟨d1, hd1, rfl⟩
  rcases List.mem_map.mp hd1 with ⟨d0, hd0, rfl⟩
  obtain ⟨hc, ht⟩ := fixDistrictsRow_fields d0
  show ((finYears inc).map (fixDistrictsRow d0).counts).sum = (fixDistrictsRow d0).total
  rw [hc, ht]
  rcases List.mem_map.mp hd0 with ⟨w, _, rfl⟩
  show ((finYears inc).map (fun y =>
      (((joinPivot kml inc).filter (fun r => fixWardName r.ward == w)).map
        (fun r => rowCount inc y r.src)).sum)).sum = _
  rw [sum_map_comm]
  refine congrArg List.sum (List.map_congr_left ?_)
  intro g _
  cases hs : g.src with
  | none => simp [rowCount, rowTotal, sum_map_zero]
  | some p =>
    simp only [rowCount, rowTotal]
    rfl

/-- C4: in the output of `combine_maps_w_data`, every ward row with nonzero
population `P` and combined incident count `C` over the fiscal years 2021
and 2022 has rate exactly `(C / (P * 2)) * 10000`. -/
theorem combine_maps_rate_formula (kml : List KmlRec) (inc : List IncRec)
    (census : List (String × ℚ)) (rows : List OutRow)
    (h : combine_maps_w_data kml inc census = Except.ok rows) :
    ∀ r ∈ rows, r.population ≠ 0 →
      r.rate = FloatVal.fin
        ((r.counts 2021 + r.counts 2022) / (r.population * 2) * 10000) := by
  intro r hr hp
  rw [combine_maps_ok h] at hr
  rcases List.mem_map.mp hr with ⟨d1, _, rfl⟩
  replace hp : censusPopulation census d1.ward ≠ 0 := hp
  show floatMulPos (floatDiv (d1.counts 2021 + d1.counts 2022)
      (censusPopulation census d1.ward * 2)) 10000
    = FloatVal.fin ((d1.counts 2021 + d1.counts 2022) /
        (censusPopulation census d1.ward * 2) * 10000)
  have hb : censusPopulation census d1.ward * 2 ≠ 0 := mul_ne_zero hp two_ne_zero
  rw [floatDiv, if_neg hb]
  rfl

/-- C10: `combine_maps_w_data` handles zero-population ward rows (those
absent from the census, zero-filled by `fillna(0)`) without raising: the
rate divides by zero and is positive infinity when the combined 2021+2022
count is positive and NaN when it is zero. -/
theorem combine_maps_zero_population (kml : List KmlRec) (inc : List IncRec)
    (census : List (String × ℚ)) (rows : List OutRow)
    (h : combine_maps_w_data kml inc census = Except.ok rows) :
    ∀ r ∈ rows, r.population = 0 →
      (0 < r.counts 2021 + r.counts 2022 → r.rate = FloatVal.posInf) ∧
      (r.counts 2021 + r.counts 2022 = 0 → r.rate = FloatVal.nan) := by
  intro r hr hp
  rw [combine_maps_ok h] at hr
  rcases List.mem_map.mp hr with ⟨d1, _, rfl⟩
  replace hp : censusPopulation census d1.ward = 0 := hp
  have hb : censusPopulation census d1.ward * 2 = 0 := by rw [hp, zero_mul]
  constructor
  · intro hc
    replace hc : 0 < d1.counts 2021 + d1.counts 2022 := hc
    show floatMulPos (floatDiv (d1.counts 2021 + d1.counts 2022)
        (censusPopulation census d1.ward * 2)) 10000 = FloatVal.posInf
    rw [floatDiv, if_pos hb, if_neg hc.ne', if_pos hc]
    rfl
  · intro hc
    replace hc : d1.counts 2021 + d1.counts 2022 = 0 := hc
    show floatMulPos (floatDiv (d1.counts 2021 + d1.counts 2022)
        (censusPopulation census d1.ward * 2)) 10000 = FloatVal.nan
    rw [floatDiv, if_pos hb, if_pos hc]
    rfl

/-- C5 witness: the row-sum property at a concrete boundary table (wards
"Alpha", "Beta"), incident table (fiscal years 2021 and 2022) and census
table. -/
theorem combine_maps_row_sums_witness :
    ∃ rows, combine_maps_w_data kmlSample incSample censusSample = Except.ok rows ∧
      ∀ r ∈ rows, ((finYears incSample).map r.counts).sum = r.total :=
  ⟨_, rfl, combine_maps_row_sums kmlSample incSample censusSample _ rfl⟩

/-- C4 witness: the rate formula at the same concrete input; ward "Alpha"
has census population 100. -/
theorem combine_maps_rate_formula_witness :
    ∃ rows, combine_maps_w_data kmlSample incSample censusSample = Except.ok rows ∧
      ∀ r ∈ rows, r.population ≠ 0 →
        r.rate = FloatVal.fin
          ((r.counts 2021 + r.counts 2022) / (r.population * 2) * 10000) :=
  ⟨_, rfl, combine_maps_rate_formula kmlSample incSample censusSample _ rfl⟩

/-- C10 witness: the zero-population behaviour at the same concrete input;
ward "Beta" is absent from the census and has one 2021 incident. -/
theorem combine_maps_zero_population_witness :
    ∃ rows, combine_maps_w_data kmlSample incSample censusSample = Except.ok rows ∧
      ∀ r ∈ rows, r.population = 0 →
        (0 < r.counts 2021 + r.counts 2022 → r.rate = FloatVal.posInf) ∧
        (r.counts 2021 + r.counts 2022 = 0 → r.rate = FloatVal.nan) :=
  ⟨_, rfl, combine_maps_zero_population kmlSample incSample censusSample _ rfl⟩

end AnimalRescues
